import Mathlib

/-!
# Verification of `func_Rcpp` (content/post/2020-08-30-Rcpp/my_func.cpp)

The C++ function

    NumericMatrix func_Rcpp(int x) {
      NumericMatrix M = NumericMatrix(x);
      for(int row = 0; row < x; row++)
        for(int col = 0; col < x; col++)
          for(int m=0; m <= min(row,col); m++)
            M(row,col) += R::dpois(col-m, 1, false) * R::dbinom(m, row, 0.75, false);
      return M;
    }

is embedded as explicit state passing over a column-major buffer.  The
numeric type is a field `α` and the exponential is a parameter `exp`, so the
definitions run on `ℚ`; the theorems about values instantiate `α := ℝ` and
`exp := Real.exp` (exact real arithmetic).

The loop counters are `int`s that stay within `0 .. x`, so no machine
overflow can occur and they are embedded as `Int`.  Failure of the allocation
of the buffer is not modelled.
-/

set_option autoImplicit false
set_option linter.unusedSectionVars false

namespace MyFunc

/-! ## Data model -/

/-- Failures of the embedded program.  An access `M(row,col)` outside the
matrix is undefined behaviour in C++ and is embedded as `indexOutOfBounds`;
`invalidArgument` is the error the specification names for a rejected
argument. -/
inductive Error where
  | invalidArgument
  | indexOutOfBounds
  deriving DecidableEq

/-- Modelled from the spec: the type `NumericMatrix` of the Rcpp library
(its declaration is not part of the repository).  A matrix with `nrow` rows
and `ncol` columns stored column by column in one flat buffer. -/
structure NumericMatrix (α : Type) where
  nrow : Nat
  ncol : Nat
  data : Array α

/-- One execution of the loop body, recorded by the embedding: the cell
`M(row,col)` it reads and writes, the argument of `R::dpois` and the first two
arguments of `R::dbinom`. -/
structure Step where
  row : Int
  col : Int
  dpoisX : Int
  dbinomX : Int
  dbinomN : Int
  deriving DecidableEq

/-- The state threaded through the loops: the matrix under construction, and
a ghost log of the executions of the loop body, in execution order. -/
structure State (α : Type) where
  M : NumericMatrix α
  trace : List Step

variable {α : Type} [Field α]

/-- Modelled from the spec: the constructor `NumericMatrix(n)` of the Rcpp
library.  For `n ≥ 0` it is the `n × n` matrix filled with zeros.  What the
host library does with a negative `n` is left open by the spec, so it is the
parameter `neg`. -/
def NumericMatrix.square (neg : Int → Except Error (NumericMatrix α)) (n : Int) :
    Except Error (NumericMatrix α) :=
  if n < 0 then neg n
  else .ok { nrow := n.toNat, ncol := n.toNat, data := mkArray (n.toNat * n.toNat) 0 }

/-- Position of cell `(row, col)` in the column-major buffer, when the cell
exists. -/
def NumericMatrix.offset (M : NumericMatrix α) (row col : Int) : Option Nat :=
  if 0 ≤ row ∧ row < M.nrow ∧ 0 ≤ col ∧ col < M.ncol then
    some (row.toNat + M.nrow * col.toNat)
  else none

/-- Read of `M(row,col)`. -/
def NumericMatrix.get (M : NumericMatrix α) (row col : Int) : Except Error α :=
  match M.offset row col with
  | none => .error .indexOutOfBounds
  | some i =>
    match M.data[i]? with
    | none => .error .indexOutOfBounds
    | some v => .ok v

/-- Write of `M(row,col)`. -/
def NumericMatrix.set (M : NumericMatrix α) (row col : Int) (v : α) :
    Except Error (NumericMatrix α) :=
  match M.offset row col with
  | none => .error .indexOutOfBounds
  | some i =>
    if i < M.data.size then .ok { M with data := M.data.setD i v }
    else .error .indexOutOfBounds

/-! ## The two library PMFs -/

/-- Modelled from the spec: `R::dpois(x, lambda, false)` of the R math
library in exact arithmetic, the Poisson mass `e^(-lambda) lambda^x / x!` at an
integer `x ≥ 0`, and `0` at a negative `x`. -/
def dpois (exp : α → α) (x : Int) (lambda : α) : α :=
  if x < 0 then 0
  else exp (-lambda) * lambda ^ x.toNat / (x.toNat.factorial : α)

/-- Modelled from the spec: `R::dbinom(x, n, p, false)` of the R math
library in exact arithmetic, the Binomial mass `C(n,x) p^x (1-p)^(n-x)` at an
integer `0 ≤ x ≤ n`.  The spec defines it on that range only; outside it the
model answers `0`, a value the loop nest never asks for. -/
def dbinom (x n : Int) (p : α) : α :=
  if 0 ≤ x ∧ x ≤ n then
    (n.toNat.choose x.toNat : α) * p ^ x.toNat * (1 - p) ^ (n.toNat - x.toNat)
  else 0

/-! ## The program -/

/-- The loop body `M(row,col) += R::dpois(col-m, 1, false) * R::dbinom(m, row, 0.75, false)`. -/
def accumulate (exp : α → α) (row col m : Int) (s : State α) : Except Error (State α) :=
  let term := dpois exp (col - m) 1 * dbinom m row 0.75
  match s.M.get row col with
  | .error e => .error e
  | .ok old =>
    match s.M.set row col (old + term) with
    | .error e => .error e
    | .ok M' =>
      .ok { M := M'
            trace := s.trace ++
              [{ row := row, col := col, dpoisX := col - m, dbinomX := m, dbinomN := row }] }

/-- The loop `for(int m=0; m <= min(row,col); m++)`, entered with counter `m`. -/
def loop_m (exp : α → α) (row col m : Int) (s : State α) : Except Error (State α) :=
  if m ≤ min row col then
    match accumulate exp row col m s with
    | .error e => .error e
    | .ok s' => loop_m exp row col (m + 1) s'
  else .ok s
termination_by (min row col + 1 - m).toNat
decreasing_by omega

/-- The loop `for(int col = 0; col < x; col++)`, entered with counter `col`. -/
def loop_col (exp : α → α) (x row col : Int) (s : State α) : Except Error (State α) :=
  if col < x then
    match loop_m exp row col 0 s with
    | .error e => .error e
    | .ok s' => loop_col exp x row (col + 1) s'
  else .ok s
termination_by (x - col).toNat
decreasing_by omega

/-- The loop `for(int row = 0; row < x; row++)`, entered with counter `row`. -/
def loop_row (exp : α → α) (x row : Int) (s : State α) : Except Error (State α) :=
  if row < x then
    match loop_col exp x row 0 s with
    | .error e => .error e
    | .ok s' => loop_row exp x (row + 1) s'
  else .ok s
termination_by (x - row).toNat
decreasing_by omega

/-- The whole run of `func_Rcpp(x)`: construction of `M`, then the loop nest,
with the ghost log of the run. -/
def run (neg : Int → Except Error (NumericMatrix α)) (exp : α → α) (x : Int) :
    Except Error (State α) :=
  match NumericMatrix.square neg x with
  | .error e => .error e
  | .ok M => loop_row exp x 0 { M := M, trace := [] }

/-- The function `func_Rcpp(int x)`: the matrix returned by the run. -/
def func_Rcpp (neg : Int → Except Error (NumericMatrix α)) (exp : α → α) (x : Int) :
    Except Error (NumericMatrix α) :=
  match run neg exp x with
  | .error e => .error e
  | .ok s => .ok s.M

/-! ## Expected contents of the matrix -/

/-- The sum of the first `k` terms added to cell `(row, col)` by the innermost loop. -/
def cellSum (exp : α → α) (row col : Int) (k : Nat) : α :=
  ∑ m in Finset.range k, dpois exp (col - (m : Int)) 1 * dbinom (m : Int) row 0.75

/-- Value of cell `(i, j)` when the loop nest stands at counters `(row, col, m)`:
cells before `(row, col)` in row-major order are finished, cell `(row, col)` holds
its first `m` terms, later cells are still zero. -/
def expected (exp : α → α) (row col m i j : Int) : α :=
  if i < row ∨ (i = row ∧ j < col) then cellSum exp i j (min i j + 1).toNat
  else if i = row ∧ j = col then cellSum exp i j m.toNat
  else 0

/-- Iteration `(i, j, k)` of the loop nest comes before the point where the
counters are `(row, col, m)`. -/
def Before (row col m i j k : Int) : Prop :=
  i < row ∨ (i = row ∧ j < col) ∨ (i = row ∧ j = col ∧ k < m)

/-- Shape of an `x × x` matrix. -/
structure NumericMatrix.IsSquare (M : NumericMatrix α) (x : Int) : Prop where
  nrow_eq : (M.nrow : Int) = x
  ncol_eq : (M.ncol : Int) = x
  size_eq : M.data.size = M.nrow * M.ncol

/-- Loop invariant of the nest at counters `(row, col, m)`. -/
structure Inv (exp : α → α) (x row col m : Int) (s : State α) : Prop where
  square : s.M.IsSquare x
  cells : ∀ i j : Int, 0 ≤ i → i < x → 0 ≤ j → j < x →
    s.M.get i j = .ok (expected exp row col m i j)
  trace : ∀ t : Step, t ∈ s.trace ↔
    ∃ i j k : Int, (0 ≤ i ∧ i < x) ∧ (0 ≤ j ∧ j < x) ∧ (0 ≤ k ∧ k ≤ min i j) ∧
      Before row col m i j k ∧ t = ⟨i, j, j - k, k, i⟩

/-! ## The convolution, in the words of the specification -/

/-- The Poisson(1) mass extended by `0` on the negative integers:
`e^-1 / k!` at `k ≥ 0`, and `0` at `k < 0`. -/
def P0 (exp : α → α) (k : Int) : α :=
  if k < 0 then 0 else exp (-1) / (k.toNat.factorial : α)

/-- The Binomial(`n`, 0.75) mass `C(n,m) 0.75^m (1 - 0.75)^(n-m)`. -/
def binomialPMF (n m : Nat) : α :=
  (n.choose m : α) * 0.75 ^ m * (1 - 0.75) ^ (n - m)

/-- The full convolution sum over `m = 0 .. row` of
`P0(col - m) * BinomialPMF(m; row, 0.75)`. -/
def convolution (exp : α → α) (row col : Nat) : α :=
  ∑ m in Finset.range (row + 1), P0 exp ((col : Int) - (m : Int)) * binomialPMF row m

/-! ## Buffer lemmas -/

theorem getElem?_setD (a : Array α) (i k : Nat) (v : α) (h : i < a.size) :
    (a.setD i v)[k]? = if i = k then some v else a[k]? := by
  unfold Array.setD
  rw [dif_pos h]
  exact Array.get?_set a ⟨i, h⟩ k v

theorem offset_lt {n c i j : Nat} (hi : i < n) (hj : j < c) : i + n * j < n * c := by
  have h1 : n * (j + 1) ≤ n * c := Nat.mul_le_mul_left n hj
  rw [Nat.mul_succ] at h1
  omega

theorem offset_inj {n i j i' j' : Nat} (hi : i < n) (hi' : i' < n)
    (h : i + n * j = i' + n * j') : i = i' ∧ j = j' := by
  have hn : 0 < n := by omega
  have e1 : (i + n * j) % n = i := by
    rw [Nat.add_mul_mod_self_left]; exact Nat.mod_eq_of_lt hi
  have e2 : (i' + n * j') % n = i' := by
    rw [Nat.add_mul_mod_self_left]; exact Nat.mod_eq_of_lt hi'
  have hii : i = i' := by rw [← e1, ← e2, h]
  subst hii
  have hm : n * j = n * j' := by omega
  exact ⟨rfl, Nat.eq_of_mul_eq_mul_left hn hm⟩

theorem offset_eq {M : NumericMatrix α} {x row col : Int} (hM : M.IsSquare x)
    (hr0 : 0 ≤ row) (hr : row < x) (hc0 : 0 ≤ col) (hc : col < x) :
    M.offset row col = some (row.toNat + M.nrow * col.toNat) := by
  have h1 := hM.nrow_eq
  have h2 := hM.ncol_eq
  unfold NumericMatrix.offset
  rw [if_pos]
  omega

theorem offset_in_buffer {M : NumericMatrix α} {x row col : Int} (hM : M.IsSquare x)
    (hr0 : 0 ≤ row) (hr : row < x) (hc0 : 0 ≤ col) (hc : col < x) :
    row.toNat + M.nrow * col.toNat < M.data.size := by
  have h1 := hM.nrow_eq
  have h2 := hM.ncol_eq
  rw [hM.size_eq]
  exact offset_lt (by omega) (by omega)

theorem get_eq {M : NumericMatrix α} {x row col : Int} (hM : M.IsSquare x)
    (hr0 : 0 ≤ row) (hr : row < x) (hc0 : 0 ≤ col) (hc : col < x) :
    M.get row col =
      match M.data[row.toNat + M.nrow * col.toNat]? with
      | none => .error .indexOutOfBounds
      | some v => .ok v := by
  unfold NumericMatrix.get
  rw [offset_eq hM hr0 hr hc0 hc]

theorem set_eq {M : NumericMatrix α} {x row col : Int} (v : α) (hM : M.IsSquare x)
    (hr0 : 0 ≤ row) (hr : row < x) (hc0 : 0 ≤ col) (hc : col < x) :
    M.set row col v =
      .ok { M with data := M.data.setD (row.toNat + M.nrow * col.toNat) v } := by
  unfold NumericMatrix.set
  rw [offset_eq hM hr0 hr hc0 hc]
  simp only
  rw [if_pos (offset_in_buffer hM hr0 hr hc0 hc)]

theorem square_setD {M : NumericMatrix α} {x : Int} (k : Nat) (v : α) (hM : M.IsSquare x) :
    NumericMatrix.IsSquare { M with data := M.data.setD k v } x :=
  ⟨hM.nrow_eq, hM.ncol_eq, by simpa [Array.size_setD] using hM.size_eq⟩

theorem get_setD {M : NumericMatrix α} {x row col i j : Int} (v : α) (hM : M.IsSquare x)
    (hr0 : 0 ≤ row) (hr : row < x) (hc0 : 0 ≤ col) (hc : col < x)
    (hi0 : 0 ≤ i) (hi : i < x) (hj0 : 0 ≤ j) (hj : j < x) :
    NumericMatrix.get { M with data := M.data.setD (row.toNat + M.nrow * col.toNat) v } i j =
      if i = row ∧ j = col then .ok v else M.get i j := by
  have h1 := hM.nrow_eq
  rw [get_eq (square_setD _ v hM) hi0 hi hj0 hj, get_eq hM hi0 hi hj0 hj]
  simp only
  rw [getElem?_setD _ _ _ _ (offset_in_buffer hM hr0 hr hc0 hc)]
  by_cases hEq : i = row ∧ j = col
  · obtain ⟨rfl, rfl⟩ := hEq
    simp
  · rw [if_neg hEq, if_neg]
    intro hOff
    have := offset_inj (n := M.nrow) (by omega) (by omega) hOff
    omega

/-! ## Expected contents: the three counter moves -/

theorem cellSum_succ (exp : α → α) (row col : Int) (k : Nat) :
    cellSum exp row col (k + 1) =
      cellSum exp row col k + dpois exp (col - (k : Int)) 1 * dbinom (k : Int) row 0.75 := by
  unfold cellSum
  rw [Finset.sum_range_succ]

theorem expected_step (exp : α → α) {row col m : Int} (hm : 0 ≤ m) (i j : Int) :
    expected exp row col (m + 1) i j =
      if i = row ∧ j = col then
        expected exp row col m row col + dpois exp (col - m) 1 * dbinom m row 0.75
      else expected exp row col m i j := by
  have hk : (m + 1).toNat = m.toNat + 1 := by omega
  have hc : ((m.toNat : Nat) : Int) = m := by omega
  by_cases h : i = row ∧ j = col
  · obtain ⟨rfl, rfl⟩ := h
    have hne : ¬ (i < i ∨ (i = i ∧ j < j)) := by omega
    rw [if_pos ⟨rfl, rfl⟩]
    unfold expected
    rw [if_neg hne, if_neg hne, if_pos ⟨rfl, rfl⟩, if_pos ⟨rfl, rfl⟩, hk, cellSum_succ, hc]
  · rw [if_neg h]
    unfold expected
    by_cases h1 : i < row ∨ (i = row ∧ j < col)
    · rw [if_pos h1, if_pos h1]
    · rw [if_neg h1, if_neg h1, if_neg h, if_neg h]

theorem expected_next_col (exp : α → α) (row col i j : Int) :
    expected exp row col (min row col + 1) i j = expected exp row (col + 1) 0 i j := by
  unfold expected
  by_cases h1 : i < row ∨ (i = row ∧ j < col)
  · rw [if_pos h1, if_pos (by omega)]
  · rw [if_neg h1]
    by_cases h2 : i = row ∧ j = col
    · obtain ⟨rfl, rfl⟩ := h2
      rw [if_pos ⟨rfl, rfl⟩, if_pos (by omega)]
    · rw [if_neg h2, if_neg (by omega)]
      by_cases h3 : i = row ∧ j = col + 1
      · rw [if_pos h3]
        simp [cellSum]
      · rw [if_neg h3]

theorem expected_next_row (exp : α → α) {x : Int} (row i j : Int) (hj0 : 0 ≤ j) (hj : j < x) :
    expected exp row x 0 i j = expected exp (row + 1) 0 0 i j := by
  unfold expected
  by_cases h1 : i < row ∨ (i = row ∧ j < x)
  · rw [if_pos h1, if_pos (by omega)]
  · rw [if_neg h1, if_neg (by omega), if_neg (by omega)]
    by_cases h3 : i = row + 1 ∧ j = 0
    · rw [if_pos h3]
      simp [cellSum]
    · rw [if_neg h3]

theorem expected_start (exp : α → α) (i j : Int) (hi0 : 0 ≤ i) (hj0 : 0 ≤ j) :
    expected exp 0 0 0 i j = 0 := by
  unfold expected
  rw [if_neg (by omega)]
  split
  · simp [cellSum]
  · rfl

theorem expected_done (exp : α → α) {x : Int} (i j : Int) (hi : i < x) :
    expected exp x 0 0 i j = cellSum exp i j (min i j + 1).toNat := by
  unfold expected
  rw [if_pos (Or.inl hi)]

/-! ## The loops preserve the invariant -/

theorem accumulate_inv (exp : α → α) {x row col m : Int} {s : State α}
    (hr0 : 0 ≤ row) (hr : row < x) (hc0 : 0 ≤ col) (hc : col < x)
    (hm0 : 0 ≤ m) (hm : m ≤ min row col) (h : Inv exp x row col m s) :
    ∃ s', accumulate exp row col m s = .ok s' ∧ Inv exp x row col (m + 1) s' := by
  unfold accumulate
  simp only
  rw [h.cells row col hr0 hr hc0 hc]
  simp only
  rw [set_eq _ h.square hr0 hr hc0 hc]
  refine ⟨_, rfl, ?_⟩
  constructor
  · exact square_setD _ _ h.square
  · intro i j hi0 hi hj0 hj
    simp only
    rw [get_setD _ h.square hr0 hr hc0 hc hi0 hi hj0 hj, expected_step exp hm0 i j]
    split
    · rfl
    · exact h.cells i j hi0 hi hj0 hj
  · intro t
    simp only [List.mem_append, List.mem_singleton]
    rw [h.trace t]
    constructor
    · rintro (⟨i, j, k, hi, hj, hk, hb, rfl⟩ | rfl)
      · exact ⟨i, j, k, hi, hj, hk, by unfold Before at hb ⊢; omega, rfl⟩
      · exact ⟨row, col, m, ⟨hr0, hr⟩, ⟨hc0, hc⟩, ⟨hm0, hm⟩, by unfold Before; omega, rfl⟩
    · rintro ⟨i, j, k, hi, hj, hk, hb, rfl⟩
      by_cases hEq : i = row ∧ j = col ∧ k = m
      · obtain ⟨rfl, rfl, rfl⟩ := hEq
        exact Or.inr rfl
      · exact Or.inl ⟨i, j, k, hi, hj, hk, by unfold Before at hb ⊢; omega, rfl⟩

theorem loop_m_inv (exp : α → α) {x row col : Int}
    (hr0 : 0 ≤ row) (hr : row < x) (hc0 : 0 ≤ col) (hc : col < x) :
    ∀ (n : Nat) (m : Int) (s : State α), (min row col + 1 - m).toNat = n → 0 ≤ m →
      m ≤ min row col + 1 → Inv exp x row col m s →
      ∃ s', loop_m exp row col m s = .ok s' ∧ Inv exp x row col (min row col + 1) s' := by
  intro n
  induction n with
  | zero =>
    intro m s hn hm0 hm h
    have hEq : m = min row col + 1 := by omega
    rw [loop_m, if_neg (by omega)]
    exact ⟨s, rfl, hEq ▸ h⟩
  | succ n ih =>
    intro m s hn hm0 hm h
    have hle : m ≤ min row col := by omega
    obtain ⟨s1, hs1, h1⟩ := accumulate_inv exp hr0 hr hc0 hc hm0 hle h
    rw [loop_m, if_pos hle, hs1]
    exact ih (m + 1) s1 (by omega) (by omega) (by omega) h1

theorem loop_col_inv (exp : α → α) {x row : Int} (hr0 : 0 ≤ row) (hr : row < x) :
    ∀ (n : Nat) (col : Int) (s : State α), (x - col).toNat = n → 0 ≤ col → col ≤ x →
      Inv exp x row col 0 s →
      ∃ s', loop_col exp x row col s = .ok s' ∧ Inv exp x row x 0 s' := by
  intro n
  induction n with
  | zero =>
    intro col s hn hc0 hc h
    have hEq : col = x := by omega
    rw [loop_col, if_neg (by omega)]
    exact ⟨s, rfl, hEq ▸ h⟩
  | succ n ih =>
    intro col s hn hc0 hc h
    have hlt : col < x := by omega
    obtain ⟨s1, hs1, h1⟩ :=
      loop_m_inv exp hr0 hr hc0 hlt _ 0 s rfl (le_refl 0) (by omega) h
    rw [loop_col, if_pos hlt, hs1]
    refine ih (col + 1) s1 (by omega) (by omega) (by omega) ?_
    refine ⟨h1.square, fun i j hi0 hi hj0 hj => ?_, fun t => ?_⟩
    · rw [← expected_next_col]
      exact h1.cells i j hi0 hi hj0 hj
    · rw [h1.trace t]
      constructor
      · rintro ⟨i, j, k, hi, hj, hk, hb, rfl⟩
        exact ⟨i, j, k, hi, hj, hk, by unfold Before at hb ⊢; omega, rfl⟩
      · rintro ⟨i, j, k, hi, hj, hk, hb, rfl⟩
        exact ⟨i, j, k, hi, hj, hk, by unfold Before at hb ⊢; omega, rfl⟩

theorem loop_row_inv (exp : α → α) {x : Int} :
    ∀ (n : Nat) (row : Int) (s : State α), (x - row).toNat = n → 0 ≤ row → row ≤ x →
      Inv exp x row 0 0 s →
      ∃ s', loop_row exp x row s = .ok s' ∧ Inv exp x x 0 0 s' := by
  intro n
  induction n with
  | zero =>
    intro row s hn hr0 hr h
    have hEq : row = x := by omega
    rw [loop_row, if_neg (by omega)]
    exact ⟨s, rfl, hEq ▸ h⟩
  | succ n ih =>
    intro row s hn hr0 hr h
    have hlt : row < x := by omega
    obtain ⟨s1, hs1, h1⟩ :=
      loop_col_inv exp hr0 hlt _ 0 s rfl (le_refl 0) (by omega) h
    rw [loop_row, if_pos hlt, hs1]
    refine ih (row + 1) s1 (by omega) (by omega) (by omega) ?_
    refine ⟨h1.square, fun i j hi0 hi hj0 hj => ?_, fun t => ?_⟩
    · rw [← expected_next_row exp row i j hj0 hj]
      exact h1.cells i j hi0 hi hj0 hj
    · rw [h1.trace t]
      constructor
      · rintro ⟨i, j, k, hi, hj, hk, hb, rfl⟩
        exact ⟨i, j, k, hi, hj, hk, by unfold Before at hb ⊢; omega, rfl⟩
      · rintro ⟨i, j, k, hi, hj, hk, hb, rfl⟩
        exact ⟨i, j, k, hi, hj, hk, by unfold Before at hb ⊢; omega, rfl⟩

/-! ## The whole run -/

theorem square_inv (neg : Int → Except Error (NumericMatrix α)) (exp : α → α) {x : Int}
    (hx : 0 ≤ x) :
    ∃ M, NumericMatrix.square neg x = .ok M ∧ Inv exp x 0 0 0 { M := M, trace := [] } := by
  unfold NumericMatrix.square
  rw [if_neg (by omega)]
  refine ⟨_, rfl, ?_⟩
  have hsq : NumericMatrix.IsSquare
      ({ nrow := x.toNat, ncol := x.toNat, data := mkArray (x.toNat * x.toNat) 0 } :
        NumericMatrix α) x :=
    ⟨by simp only; omega, by simp only; omega, by simp⟩
  refine ⟨hsq, fun i j hi0 hi hj0 hj => ?_, fun t => ?_⟩
  · rw [get_eq hsq hi0 hi hj0 hj, expected_start exp i j hi0 hj0]
    simp only
    rw [Array.getElem?_mkArray, if_pos (offset_lt (by omega) (by omega))]
  · constructor
    · intro ht
      simp at ht
    · rintro ⟨i, j, k, hi, hj, hk, hb, -⟩
      unfold Before at hb
      omega

theorem run_inv (neg : Int → Except Error (NumericMatrix α)) (exp : α → α) {x : Int}
    (hx : 0 ≤ x) : ∃ s, run neg exp x = .ok s ∧ Inv exp x x 0 0 s := by
  obtain ⟨M, hM, h0⟩ := square_inv neg exp hx
  obtain ⟨s, hs, h⟩ := loop_row_inv exp _ 0 _ rfl (le_refl 0) hx h0
  unfold run
  rw [hM]
  exact ⟨s, hs, h⟩

theorem func_Rcpp_cells (neg : Int → Except Error (NumericMatrix α)) (exp : α → α) {x : Int}
    (hx : 0 ≤ x) :
    ∃ M, func_Rcpp neg exp x = .ok M ∧ M.IsSquare x ∧
      ∀ i j : Int, 0 ≤ i → i < x → 0 ≤ j → j < x →
        M.get i j = .ok (cellSum exp i j (min i j + 1).toNat) := by
  obtain ⟨s, hs, h⟩ := run_inv neg exp hx
  unfold func_Rcpp
  rw [hs]
  refine ⟨s.M, rfl, h.square, fun i j hi0 hi hj0 hj => ?_⟩
  rw [h.cells i j hi0 hi hj0 hj, expected_done exp i j hi]

/-! ## The PMFs inside their supports -/

theorem dpois_one_natCast (exp : α → α) (k : Nat) :
    dpois exp (k : Int) 1 = exp (-1) / (k.factorial : α) := by
  unfold dpois
  rw [if_neg (by omega), Int.toNat_ofNat, one_pow, mul_one]

theorem dbinom_natCast (m n : Nat) (h : m ≤ n) (p : α) :
    dbinom (m : Int) (n : Int) p = (n.choose m : α) * p ^ m * (1 - p) ^ (n - m) := by
  unfold dbinom
  rw [if_pos ⟨by omega, by omega⟩, Int.toNat_ofNat, Int.toNat_ofNat]

theorem cellSum_natCast (exp : α → α) (row col : Nat) :
    cellSum exp (row : Int) (col : Int) (min (row : Int) (col : Int) + 1).toNat =
      ∑ m in Finset.range (min row col + 1),
        exp (-1) / ((col - m).factorial : α) *
          ((row.choose m : α) * 0.75 ^ m * (1 - 0.75) ^ (row - m)) := by
  have hk : (min (row : Int) (col : Int) + 1).toNat = min row col + 1 := by omega
  rw [hk]
  unfold cellSum
  refine Finset.sum_congr rfl fun m hm => ?_
  have hm' : m < min row col + 1 := Finset.mem_range.mp hm
  have hsub : (col : Int) - (m : Int) = ((col - m : Nat) : Int) := by omega
  rw [hsub, dpois_one_natCast, dbinom_natCast m row (by omega)]

/-! ## Claims -/

/-- C1: for every size and every cell `(row, col)` inside the matrix, the
entry of the matrix returned by `func_Rcpp(size)` is the finite sum over
`m = 0 .. min(row,col)` of `e^-1 / (col - m)!` times
`C(row,m) 0.75^m (1 - 0.75)^(row - m)`, in exact real arithmetic. -/
theorem func_Rcpp_entry_eq_sum (neg : Int → Except Error (NumericMatrix ℝ)) (x : Int)
    (row col : Nat) (hrow : (row : Int) < x) (hcol : (col : Int) < x) :
    ∃ M, func_Rcpp neg Real.exp x = .ok M ∧
      M.get row col = .ok
        (∑ m in Finset.range (min row col + 1),
          Real.exp (-1) / ((col - m).factorial : ℝ) *
            ((row.choose m : ℝ) * 0.75 ^ m * (1 - 0.75) ^ (row - m))) := by
  obtain ⟨M, hM, -, hcells⟩ := func_Rcpp_cells neg Real.exp (x := x) (by omega)
  refine ⟨M, hM, ?_⟩
  rw [hcells row col (by omega) hrow (by omega) hcol, cellSum_natCast]

/-- Instance of C1 at size 3, cell (2, 1). -/
theorem func_Rcpp_entry_eq_sum_witness :
    ((2 : Nat) : Int) < 3 ∧ ((1 : Nat) : Int) < 3 ∧
    ∃ M, func_Rcpp (fun _ => .error .invalidArgument) Real.exp 3 = .ok M ∧
      M.get (2 : Nat) (1 : Nat) = .ok
        (∑ m in Finset.range (min 2 1 + 1),
          Real.exp (-1) / ((1 - m).factorial : ℝ) *
            (((2 : Nat).choose m : ℝ) * 0.75 ^ m * (1 - 0.75) ^ (2 - m))) :=
  ⟨by decide, by decide,
    func_Rcpp_entry_eq_sum (fun _ => .error .invalidArgument) 3 2 1 (by decide) (by decide)⟩

/-- C2: for every size `x ≥ 0` the matrix returned by `func_Rcpp(x)` has
exactly `x` rows and `x` columns (and a buffer of `x * x` cells); for `x = 0`
it is the empty matrix. -/
theorem func_Rcpp_dimensions (neg : Int → Except Error (NumericMatrix α)) (exp : α → α)
    (x : Int) (hx : 0 ≤ x) :
    ∃ M, func_Rcpp neg exp x = .ok M ∧ (M.nrow : Int) = x ∧ (M.ncol : Int) = x ∧
      M.data.size = M.nrow * M.ncol ∧ (x = 0 → M = ⟨0, 0, #[]⟩) := by
  obtain ⟨M, hM, hsq, -⟩ := func_Rcpp_cells neg exp hx
  refine ⟨M, hM, hsq.nrow_eq, hsq.ncol_eq, hsq.size_eq, fun h0 => ?_⟩
  obtain ⟨nrow, ncol, data⟩ := M
  have h1 := hsq.nrow_eq
  have h2 := hsq.ncol_eq
  have h3 := hsq.size_eq
  simp only at h1 h2 h3
  have hr : nrow = 0 := by omega
  have hc : ncol = 0 := by omega
  subst hr hc
  have hd : data = #[] := Array.eq_empty_of_size_eq_zero (by simpa using h3)
  rw [hd]

/-- Instance of C2 at size 0 over the rationals. -/
theorem func_Rcpp_dimensions_witness :
    (0 : Int) ≤ 0 ∧
    ∃ M, func_Rcpp (α := ℚ) (fun _ => .error .invalidArgument) (fun _ => 1) 0 = .ok M ∧
      (M.nrow : Int) = 0 ∧ (M.ncol : Int) = 0 ∧
      M.data.size = M.nrow * M.ncol ∧ ((0 : Int) = 0 → M = ⟨0, 0, #[]⟩) :=
  ⟨by decide,
    func_Rcpp_dimensions (fun _ => .error .invalidArgument) (fun _ => 1) 0 (by decide)⟩

/-- C3: `func_Rcpp(1)` is the 1 x 1 matrix whose single entry is
`PoissonPMF(0;1) * BinomialPMF(0;0,0.75) = e^-1`, which lies between
0.367879 and 0.367880. -/
theorem func_Rcpp_one (neg : Int → Except Error (NumericMatrix ℝ)) :
    func_Rcpp neg Real.exp 1 = .ok ⟨1, 1, #[Real.exp (-1)]⟩ ∧
      dpois Real.exp 0 1 * dbinom 0 0 (0.75 : ℝ) = Real.exp (-1) ∧
      0.367879 < Real.exp (-1) ∧ Real.exp (-1) < 0.367880 := by
  refine ⟨?_, ?_, ?_, ?_⟩
  · obtain ⟨M, hM, hsq, hcells⟩ := func_Rcpp_cells neg Real.exp (x := 1) (by decide)
    rw [hM]
    have hc := hcells ((0 : Nat) : Int) ((0 : Nat) : Int) (by decide) (by decide)
      (by decide) (by decide)
    rw [cellSum_natCast, get_eq hsq (by decide) (by decide) (by decide) (by decide)] at hc
    obtain ⟨nrow, ncol, data⟩ := M
    have h1 := hsq.nrow_eq
    have h2 := hsq.ncol_eq
    have h3 := hsq.size_eq
    simp only at h1 h2 h3 hc
    have hr : nrow = 1 := by omega
    have hcl : ncol = 1 := by omega
    subst hr hcl
    have hsz : data.size = 1 := by simpa using h3
    have hd : data = #[Real.exp (-1)] := by
      apply Array.ext
      · simpa using hsz
      · intro i h1 h2
        have hi : i = 0 := by omega
        subst hi
        rw [Array.getElem?_eq_getElem (by omega)] at hc
        simpa using hc
    rw [hd]
  · have h := dpois_one_natCast Real.exp 0
    have h' := dbinom_natCast 0 0 (le_refl 0) (0.75 : ℝ)
    simp only [Nat.cast_zero] at h h'
    rw [h, h']
    simp
  · have hpos := Real.exp_pos 1
    have hlt := Real.exp_one_lt_d9
    rw [Real.exp_neg, inv_eq_one_div, lt_div_iff₀ hpos]
    norm_num at hlt ⊢
    linarith
  · have hpos := Real.exp_pos 1
    have hgt := Real.exp_one_gt_d9
    rw [Real.exp_neg, inv_eq_one_div, div_lt_iff₀ hpos]
    norm_num at hgt ⊢
    linarith

/-- C4: for every size and every column `col` inside the matrix, the
first-row entry `M[0][col]` of `func_Rcpp(size)` is
`PoissonPMF(col;1) * BinomialPMF(0;0,0.75) = e^-1 / col!`. -/
theorem func_Rcpp_first_row (neg : Int → Except Error (NumericMatrix ℝ)) (x : Int)
    (col : Nat) (hcol : (col : Int) < x) :
    ∃ M, func_Rcpp neg Real.exp x = .ok M ∧
      M.get 0 col = .ok (Real.exp (-1) / (col.factorial : ℝ)) ∧
      dpois Real.exp (col : Int) 1 * dbinom 0 0 (0.75 : ℝ) =
        Real.exp (-1) / (col.factorial : ℝ) := by
  obtain ⟨M, hM, -, hcells⟩ := func_Rcpp_cells neg Real.exp (x := x) (by omega)
  refine ⟨M, hM, ?_, ?_⟩
  · have hc := hcells ((0 : Nat) : Int) col (by decide) (by omega) (by omega) hcol
    rw [cellSum_natCast] at hc
    simpa using hc
  · have h' := dbinom_natCast 0 0 (le_refl 0) (0.75 : ℝ)
    simp only [Nat.cast_zero] at h'
    rw [dpois_one_natCast, h']
    simp

/-- Instance of C4 at size 4, column 3. -/
theorem func_Rcpp_first_row_witness :
    ((3 : Nat) : Int) < 4 ∧
    ∃ M, func_Rcpp (fun _ => .error .invalidArgument) Real.exp 4 = .ok M ∧
      M.get 0 (3 : Nat) = .ok (Real.exp (-1) / ((3 : Nat).factorial : ℝ)) ∧
      dpois Real.exp ((3 : Nat) : Int) 1 * dbinom 0 0 (0.75 : ℝ) =
        Real.exp (-1) / ((3 : Nat).factorial : ℝ) :=
  ⟨by decide, func_Rcpp_first_row (fun _ => .error .invalidArgument) 4 3 (by decide)⟩

/-- C5: for every size and every row `row` inside the matrix, the
first-column entry `M[row][0]` of `func_Rcpp(size)` is the single term
`PoissonPMF(0;1) * BinomialPMF(0;row,0.75) = e^-1 * 0.25^row`. -/
theorem func_Rcpp_first_col (neg : Int → Except Error (NumericMatrix ℝ)) (x : Int)
    (row : Nat) (hrow : (row : Int) < x) :
    ∃ M, func_Rcpp neg Real.exp x = .ok M ∧
      M.get row 0 = .ok (Real.exp (-1) * 0.25 ^ row) ∧
      dpois Real.exp 0 1 * dbinom 0 (row : Int) (0.75 : ℝ) = Real.exp (-1) * 0.25 ^ row := by
  have hq : (1 - 0.75 : ℝ) = 0.25 := by norm_num
  obtain ⟨M, hM, -, hcells⟩ := func_Rcpp_cells neg Real.exp (x := x) (by omega)
  refine ⟨M, hM, ?_, ?_⟩
  · have hc := hcells row ((0 : Nat) : Int) (by omega) hrow (by decide) (by omega)
    rw [cellSum_natCast] at hc
    simpa [hq] using hc
  · have h := dpois_one_natCast Real.exp 0
    have h' := dbinom_natCast 0 row (Nat.zero_le row) (0.75 : ℝ)
    simp only [Nat.cast_zero] at h h'
    rw [h, h']
    simp [hq]

/-- Instance of C5 at size 4, row 2. -/
theorem func_Rcpp_first_col_witness :
    ((2 : Nat) : Int) < 4 ∧
    ∃ M, func_Rcpp (fun _ => .error .invalidArgument) Real.exp 4 = .ok M ∧
      M.get (2 : Nat) 0 = .ok (Real.exp (-1) * 0.25 ^ 2) ∧
      dpois Real.exp 0 1 * dbinom 0 ((2 : Nat) : Int) (0.75 : ℝ) =
        Real.exp (-1) * 0.25 ^ 2 :=
  ⟨by decide, func_Rcpp_first_col (fun _ => .error .invalidArgument) 4 2 (by decide)⟩

/-- C6: for every size, every entry of the matrix returned by
`func_Rcpp(size)` is defined (the read succeeds with a real number) and is
non-negative. -/
theorem func_Rcpp_entry_nonneg (neg : Int → Except Error (NumericMatrix ℝ)) (x : Int)
    (row col : Nat) (hrow : (row : Int) < x) (hcol : (col : Int) < x) :
    ∃ M v, func_Rcpp neg Real.exp x = .ok M ∧ M.get row col = .ok v ∧ 0 ≤ v := by
  have hq : (0 : ℝ) ≤ 1 - 0.75 := by norm_num
  obtain ⟨M, hM, -, hcells⟩ := func_Rcpp_cells neg Real.exp (x := x) (by omega)
  refine ⟨M, _, hM, hcells row col (by omega) hrow (by omega) hcol, ?_⟩
  rw [cellSum_natCast]
  refine Finset.sum_nonneg fun m _ => ?_
  have hpow : (0 : ℝ) ≤ (1 - 0.75) ^ (row - m) := pow_nonneg hq _
  have hexp : (0 : ℝ) ≤ Real.exp (-1) := (Real.exp_pos _).le
  positivity

/-- Instance of C6 at size 3, cell (1, 2). -/
theorem func_Rcpp_entry_nonneg_witness :
    ((1 : Nat) : Int) < 3 ∧ ((2 : Nat) : Int) < 3 ∧
    ∃ M v, func_Rcpp (fun _ => .error .invalidArgument) Real.exp 3 = .ok M ∧
      M.get (1 : Nat) (2 : Nat) = .ok v ∧ 0 ≤ v :=
  ⟨by decide, by decide,
    func_Rcpp_entry_nonneg (fun _ => .error .invalidArgument) 3 1 2 (by decide) (by decide)⟩

/-- For a negative size the loop nest runs zero iterations, so the trace is
empty and the result is the outcome of the constructor `NumericMatrix(x)`,
whatever the host library makes of a negative size. -/
theorem func_Rcpp_of_neg (neg : Int → Except Error (NumericMatrix α)) (exp : α → α)
    (x : Int) (hx : x < 0) :
    func_Rcpp neg exp x = neg x ∧
      ∀ M, neg x = .ok M → run neg exp x = .ok { M := M, trace := [] } := by
  have hrun : ∀ M, neg x = .ok M → run neg exp x = .ok { M := M, trace := [] } := by
    intro M hM
    unfold run NumericMatrix.square
    rw [if_pos hx, hM]
    simp only
    rw [loop_row, if_neg (by omega)]
  refine ⟨?_, hrun⟩
  cases hneg : neg x with
  | error e =>
    unfold func_Rcpp run NumericMatrix.square
    rw [if_pos hx, hneg]
  | ok M =>
    unfold func_Rcpp
    rw [hrun M hneg]

/-- C8: for every size `x ≥ 0` the run of `func_Rcpp(x)` ends without
failure and returns a matrix, and every access `M(row,col)` it performs has
`0 ≤ row < x` and `0 ≤ col < x`. -/
theorem func_Rcpp_total (neg : Int → Except Error (NumericMatrix α)) (exp : α → α)
    (x : Int) (hx : 0 ≤ x) :
    ∃ s, run neg exp x = .ok s ∧ func_Rcpp neg exp x = .ok s.M ∧
      ∀ t ∈ s.trace, 0 ≤ t.row ∧ t.row < x ∧ 0 ≤ t.col ∧ t.col < x := by
  obtain ⟨s, hs, h⟩ := run_inv neg exp hx
  refine ⟨s, hs, ?_, fun t ht => ?_⟩
  · unfold func_Rcpp
    rw [hs]
  · obtain ⟨i, j, k, hi, hj, -, -, rfl⟩ := (h.trace t).mp ht
    exact ⟨hi.1, hi.2, hj.1, hj.2⟩

/-- Instance of C8 at size 2. -/
theorem func_Rcpp_total_witness :
    (0 : Int) ≤ 2 ∧
    ∃ s, run (fun _ => .error .invalidArgument) Real.exp 2 = .ok s ∧
      func_Rcpp (fun _ => .error .invalidArgument) Real.exp 2 = .ok s.M ∧
      ∀ t ∈ s.trace, 0 ≤ t.row ∧ t.row < 2 ∧ 0 ≤ t.col ∧ t.col < 2 :=
  ⟨by decide, func_Rcpp_total (fun _ => .error .invalidArgument) Real.exp 2 (by decide)⟩

/-- C9: in the run of `func_Rcpp(x)`, `x ≥ 0`, the innermost loop body is
executed at every `(row, col, m)` with `0 ≤ row, col < x` and
`0 ≤ m ≤ min(row,col)`, and in every execution the Poisson argument `col - m`
is `≥ 0` and the Binomial argument `m` satisfies `0 ≤ m ≤ row`. -/
theorem func_Rcpp_pmf_in_support (neg : Int → Except Error (NumericMatrix α))
    (exp : α → α) (x : Int) (hx : 0 ≤ x) :
    ∃ s, run neg exp x = .ok s ∧
      (∀ row col m : Int, 0 ≤ row → row < x → 0 ≤ col → col < x → 0 ≤ m → m ≤ min row col →
        (⟨row, col, col - m, m, row⟩ : Step) ∈ s.trace) ∧
      ∀ t ∈ s.trace, 0 ≤ t.dpoisX ∧ 0 ≤ t.dbinomX ∧ t.dbinomX ≤ t.dbinomN := by
  obtain ⟨s, hs, h⟩ := run_inv neg exp hx
  refine ⟨s, hs, fun row col m hr0 hr hc0 hc hm0 hm => ?_, fun t ht => ?_⟩
  · exact (h.trace _).mpr
      ⟨row, col, m, ⟨hr0, hr⟩, ⟨hc0, hc⟩, ⟨hm0, hm⟩, Or.inl hr, rfl⟩
  · obtain ⟨i, j, k, hi, hj, hk, -, rfl⟩ := (h.trace t).mp ht
    simp only
    omega

/-- Instance of C9 at size 2. -/
theorem func_Rcpp_pmf_in_support_witness :
    (0 : Int) ≤ 2 ∧
    ∃ s, run (fun _ => .error .invalidArgument) Real.exp 2 = .ok s ∧
      (∀ row col m : Int, 0 ≤ row → row < 2 → 0 ≤ col → col < 2 → 0 ≤ m → m ≤ min row col →
        (⟨row, col, col - m, m, row⟩ : Step) ∈ s.trace) ∧
      ∀ t ∈ s.trace, 0 ≤ t.dpoisX ∧ 0 ≤ t.dbinomX ∧ t.dbinomX ≤ t.dbinomN :=
  ⟨by decide,
    func_Rcpp_pmf_in_support (fun _ => .error .invalidArgument) Real.exp 2 (by decide)⟩

/-- C10: for all sizes `n ≤ n'` and every cell `(row, col)` inside the
smaller matrix, `func_Rcpp(n)` and `func_Rcpp(n')` both return a matrix and
hold the same value at `(row, col)`: the smaller result is the top-left block
of the larger one. -/
theorem func_Rcpp_block (neg : Int → Except Error (NumericMatrix α)) (exp : α → α)
    (n n' : Int) (row col : Nat) (hn : n ≤ n') (hrow : (row : Int) < n)
    (hcol : (col : Int) < n) :
    ∃ M M' v, func_Rcpp neg exp n = .ok M ∧ func_Rcpp neg exp n' = .ok M' ∧
      M.get row col = .ok v ∧ M'.get row col = .ok v := by
  obtain ⟨M, hM, -, hcells⟩ := func_Rcpp_cells neg exp (x := n) (by omega)
  obtain ⟨M', hM', -, hcells'⟩ := func_Rcpp_cells neg exp (x := n') (by omega)
  exact ⟨M, M', _, hM, hM', hcells row col (by omega) hrow (by omega) hcol,
    hcells' row col (by omega) (by omega) (by omega) (by omega)⟩

/-- Instance of C10 at sizes 2 and 5, cell (1, 1). -/
theorem func_Rcpp_block_witness :
    (2 : Int) ≤ 5 ∧ ((1 : Nat) : Int) < 2 ∧
    ∃ M M' v, func_Rcpp (fun _ => .error .invalidArgument) Real.exp 2 = .ok M ∧
      func_Rcpp (fun _ => .error .invalidArgument) Real.exp 5 = .ok M' ∧
      M.get (1 : Nat) (1 : Nat) = .ok v ∧ M'.get (1 : Nat) (1 : Nat) = .ok v :=
  ⟨by decide, by decide,
    func_Rcpp_block (fun _ => .error .invalidArgument) Real.exp 2 5 1 1
      (by decide) (by decide) (by decide)⟩

/-! ## The truncated sum and the full convolution -/

theorem cellSum_eq_convolution (exp : α → α) (row col : Nat) :
    cellSum exp (row : Int) (col : Int) (min (row : Int) (col : Int) + 1).toNat =
      convolution exp row col := by
  rw [cellSum_natCast]
  unfold convolution
  have hsub : Finset.range (min row col + 1) ⊆ Finset.range (row + 1) := by
    intro m hm
    rw [Finset.mem_range] at hm ⊢
    omega
  rw [← Finset.sum_subset hsub]
  · refine Finset.sum_congr rfl fun m hm => ?_
    rw [Finset.mem_range] at hm
    have hk : ((col : Int) - (m : Int)).toNat = col - m := by omega
    unfold P0 binomialPMF
    rw [if_neg (by omega), hk]
  · intro m hm hnm
    rw [Finset.mem_range] at hm hnm
    unfold P0
    rw [if_pos (by omega), zero_mul]

/-- C11: for every size and every cell `(row, col)` inside the matrix, the
entry of `func_Rcpp(size)` equals the full convolution sum over
`m = 0 .. row` of `P0(col - m) * BinomialPMF(m; row, 0.75)`, with `P0` the
Poisson(1) mass extended by `0` on negative integers: cutting the inner loop
at `min(row,col)` loses nothing. -/
theorem func_Rcpp_entry_eq_convolution (neg : Int → Except Error (NumericMatrix ℝ))
    (x : Int) (row col : Nat) (hrow : (row : Int) < x) (hcol : (col : Int) < x) :
    ∃ M, func_Rcpp neg Real.exp x = .ok M ∧
      M.get row col = .ok (convolution Real.exp row col) ∧
      convolution Real.exp row col =
        ∑ m in Finset.range (row + 1),
          (if (col : Int) - (m : Int) < 0 then 0
            else Real.exp (-1) / ((((col : Int) - (m : Int)).toNat.factorial : ℕ) : ℝ)) *
            ((row.choose m : ℝ) * 0.75 ^ m * (1 - 0.75) ^ (row - m)) := by
  obtain ⟨M, hM, -, hcells⟩ := func_Rcpp_cells neg Real.exp (x := x) (by omega)
  refine ⟨M, hM, ?_, rfl⟩
  rw [hcells row col (by omega) hrow (by omega) hcol, cellSum_eq_convolution]

/-- Instance of C11 at size 4, cell (3, 1), where the inner loop stops at
`m = 1` and the convolution runs to `m = 3`. -/
theorem func_Rcpp_entry_eq_convolution_witness :
    ((3 : Nat) : Int) < 4 ∧ ((1 : Nat) : Int) < 4 ∧
    ∃ M, func_Rcpp (fun _ => .error .invalidArgument) Real.exp 4 = .ok M ∧
      M.get (3 : Nat) (1 : Nat) = .ok (convolution Real.exp 3 1) ∧
      convolution Real.exp 3 1 =
        ∑ m in Finset.range (3 + 1),
          (if ((1 : Nat) : Int) - (m : Int) < 0 then 0
            else Real.exp (-1) / (((((1 : Nat) : Int) - (m : Int)).toNat.factorial : ℕ) : ℝ)) *
            (((3 : Nat).choose m : ℝ) * 0.75 ^ m * (1 - 0.75) ^ (3 - m)) :=
  ⟨by decide, by decide,
    func_Rcpp_entry_eq_convolution (fun _ => .error .invalidArgument) 4 3 1
      (by decide) (by decide)⟩

/-! ## Row sums -/

theorem P0_sum_shift (exp : α → α) (m : Nat) :
    ∀ N : Nat, ∑ col in Finset.range N, P0 exp ((col : Int) - (m : Int)) =
      ∑ k in Finset.range (N - m), exp (-1) / (k.factorial : α) := by
  intro N
  induction N with
  | zero => simp
  | succ N ih =>
    rw [Finset.sum_range_succ, ih]
    by_cases h : N < m
    · have h0 : N + 1 - m = 0 := by omega
      have h1 : N - m = 0 := by omega
      unfold P0
      rw [if_pos (by omega), h0, h1, add_zero]
    · have h0 : N + 1 - m = (N - m) + 1 := by omega
      have hk : ((N : Int) - (m : Int)).toNat = N - m := by omega
      unfold P0
      rw [if_neg (by omega), h0, Finset.sum_range_succ, hk]

theorem P0_nonneg (k : Int) : (0 : ℝ) ≤ P0 Real.exp k := by
  unfold P0
  split
  · exact le_refl 0
  · exact div_nonneg (Real.exp_pos _).le (Nat.cast_nonneg _)

theorem P0_sum_le_one (N m : Nat) :
    ∑ col in Finset.range N, P0 Real.exp ((col : Int) - (m : Int)) ≤ 1 := by
  rw [P0_sum_shift]
  have hsum := Real.sum_le_exp_of_nonneg (x := 1) zero_le_one (N - m)
  have hmul : ∑ k in Finset.range (N - m), Real.exp (-1) / (k.factorial : ℝ) =
      Real.exp (-1) * ∑ k in Finset.range (N - m), (1 : ℝ) ^ k / (k.factorial : ℝ) := by
    rw [Finset.mul_sum]
    refine Finset.sum_congr rfl fun k _ => ?_
    rw [one_pow, mul_one_div]
  have hone : Real.exp (-1) * Real.exp 1 = 1 := by
    rw [← Real.exp_add]
    simp
  rw [hmul]
  calc Real.exp (-1) * ∑ k in Finset.range (N - m), (1 : ℝ) ^ k / (k.factorial : ℝ)
      ≤ Real.exp (-1) * Real.exp 1 := mul_le_mul_of_nonneg_left hsum (Real.exp_pos _).le
    _ = 1 := hone

theorem binomialPMF_nonneg (n m : Nat) : (0 : ℝ) ≤ binomialPMF n m := by
  have hq : (0 : ℝ) ≤ 1 - 0.75 := by norm_num
  have hpow : (0 : ℝ) ≤ (1 - 0.75) ^ (n - m) := pow_nonneg hq _
  unfold binomialPMF
  positivity

theorem binomialPMF_sum (n : Nat) :
    ∑ m in Finset.range (n + 1), (binomialPMF n m : α) = 1 := by
  have h := add_pow (0.75 : α) (1 - 0.75) n
  rw [add_sub_cancel, one_pow] at h
  rw [h]
  refine Finset.sum_congr rfl fun m _ => ?_
  unfold binomialPMF
  ring

theorem convolution_nonneg (row col : Nat) : (0 : ℝ) ≤ convolution Real.exp row col := by
  unfold convolution
  exact Finset.sum_nonneg fun m _ => mul_nonneg (P0_nonneg _) (binomialPMF_nonneg _ _)

theorem convolution_row_sum_le_one (row N : Nat) :
    ∑ col in Finset.range N, convolution Real.exp row col ≤ 1 := by
  unfold convolution
  rw [Finset.sum_comm]
  calc ∑ m in Finset.range (row + 1), ∑ col in Finset.range N,
          P0 Real.exp ((col : Int) - (m : Int)) * binomialPMF row m
      = ∑ m in Finset.range (row + 1),
          (∑ col in Finset.range N, P0 Real.exp ((col : Int) - (m : Int))) *
            binomialPMF row m := by
        refine Finset.sum_congr rfl fun m _ => ?_
        rw [Finset.sum_mul]
    _ ≤ ∑ m in Finset.range (row + 1), 1 * binomialPMF row m := by
        refine Finset.sum_le_sum fun m _ => ?_
        exact mul_le_mul_of_nonneg_right (P0_sum_le_one N m) (binomialPMF_nonneg row m)
    _ = 1 := by
        simp only [one_mul]
        exact binomialPMF_sum row

/-- C12: for every size and every row inside the matrix, all entries of that
row of `func_Rcpp(size)` are defined and their sum over `col = 0 .. size-1`
is at most 1; hence every single entry of the row is at most 1. -/
theorem func_Rcpp_row_sum_le_one (neg : Int → Except Error (NumericMatrix ℝ))
    (size row : Nat) (hrow : row < size) :
    ∃ (M : NumericMatrix ℝ) (v : Nat → ℝ), func_Rcpp neg Real.exp (size : Int) = .ok M ∧
      (∀ col : Nat, col < size → M.get row col = .ok (v col)) ∧
      ∑ col in Finset.range size, v col ≤ 1 ∧
      ∀ col : Nat, col < size → v col ≤ 1 := by
  obtain ⟨M, hM, -, hcells⟩ :=
    func_Rcpp_cells neg Real.exp (x := (size : Int)) (by omega)
  refine ⟨M, fun col => convolution Real.exp row col, hM, fun col hcol => ?_,
    convolution_row_sum_le_one row size, fun col hcol => ?_⟩
  · rw [hcells row col (by omega) (by omega) (by omega) (by omega), cellSum_eq_convolution]
  · have hle : convolution Real.exp row col ≤
        ∑ c in Finset.range size, convolution Real.exp row c :=
      Finset.single_le_sum (f := fun c => convolution Real.exp row c)
        (fun c _ => convolution_nonneg row c) (Finset.mem_range.mpr hcol)
    exact le_trans hle (convolution_row_sum_le_one row size)

/-- Instance of C12 at size 3, row 2. -/
theorem func_Rcpp_row_sum_le_one_witness :
    (2 : Nat) < 3 ∧
    ∃ (M : NumericMatrix ℝ) (v : Nat → ℝ),
      func_Rcpp (fun _ => .error .invalidArgument) Real.exp ((3 : Nat) : Int) = .ok M ∧
      (∀ col : Nat, col < 3 → M.get (2 : Nat) col = .ok (v col)) ∧
      ∑ col in Finset.range 3, v col ≤ 1 ∧
      ∀ col : Nat, col < 3 → v col ≤ 1 :=
  ⟨by decide,
    func_Rcpp_row_sum_le_one (fun _ => .error .invalidArgument) 3 2 (by decide)⟩

/-- C13: for every size and every cell `(row, col)` inside the matrix, the
entry of `func_Rcpp(size)` is strictly positive: it is at least its `m = 0`
term `e^-1 / col! * 0.25^row`, which is positive. -/
theorem func_Rcpp_entry_pos (neg : Int → Except Error (NumericMatrix ℝ)) (x : Int)
    (row col : Nat) (hrow : (row : Int) < x) (hcol : (col : Int) < x) :
    ∃ M v, func_Rcpp neg Real.exp x = .ok M ∧ M.get row col = .ok v ∧
      0 < Real.exp (-1) / (col.factorial : ℝ) * 0.25 ^ row ∧
      Real.exp (-1) / (col.factorial : ℝ) * 0.25 ^ row ≤ v ∧ 0 < v := by
  have hq : (1 - 0.75 : ℝ) = 0.25 := by norm_num
  have hexp : (0 : ℝ) < Real.exp (-1) := Real.exp_pos _
  have hfirst : (0 : ℝ) < Real.exp (-1) / (col.factorial : ℝ) * 0.25 ^ row := by
    have hfac : (0 : ℝ) < (col.factorial : ℝ) := by exact_mod_cast col.factorial_pos
    positivity
  obtain ⟨M, hM, -, hcells⟩ := func_Rcpp_cells neg Real.exp (x := x) (by omega)
  refine ⟨M, _, hM, hcells row col (by omega) hrow (by omega) hcol, hfirst, ?_⟩
  rw [cellSum_natCast]
  have hterm : ∀ m ∈ Finset.range (min row col + 1),
      (0 : ℝ) ≤ Real.exp (-1) / ((col - m).factorial : ℝ) *
        ((row.choose m : ℝ) * 0.75 ^ m * (1 - 0.75) ^ (row - m)) := by
    intro m _
    rw [hq]
    positivity
  have hle := Finset.single_le_sum hterm (Finset.mem_range.mpr (Nat.succ_pos (min row col)))
  simp only [Nat.sub_zero, Nat.choose_zero_right, Nat.cast_one, pow_zero, mul_one, one_mul,
    hq] at hle
  rw [hq]
  exact ⟨hle, lt_of_lt_of_le hfirst hle⟩

/-- Instance of C13 at size 3, cell (2, 2). -/
theorem func_Rcpp_entry_pos_witness :
    ((2 : Nat) : Int) < 3 ∧
    ∃ M v, func_Rcpp (fun _ => .error .invalidArgument) Real.exp 3 = .ok M ∧
      M.get (2 : Nat) (2 : Nat) = .ok v ∧
      0 < Real.exp (-1) / ((2 : Nat).factorial : ℝ) * 0.25 ^ 2 ∧
      Real.exp (-1) / ((2 : Nat).factorial : ℝ) * 0.25 ^ 2 ≤ v ∧ 0 < v :=
  ⟨by decide,
    func_Rcpp_entry_pos (fun _ => .error .invalidArgument) 3 2 2 (by decide) (by decide)⟩

/-- C14: the result is not symmetric: in the matrix returned by
`func_Rcpp(2)` the entry `M[0][1]` is `e^-1` and the entry `M[1][0]` is
`e^-1 * 0.25`, and the two differ. -/
theorem func_Rcpp_not_symmetric (neg : Int → Except Error (NumericMatrix ℝ)) :
    ∃ M, func_Rcpp neg Real.exp 2 = .ok M ∧
      M.get 0 1 = .ok (Real.exp (-1)) ∧
      M.get 1 0 = .ok (Real.exp (-1) * 0.25) ∧
      M.get 0 1 ≠ M.get 1 0 := by
  have hq : (1 - 0.75 : ℝ) = 0.25 := by norm_num
  obtain ⟨M, hM, -, hcells⟩ := func_Rcpp_cells neg Real.exp (x := 2) (by decide)
  have h01 : M.get 0 1 = .ok (Real.exp (-1)) := by
    have hc := hcells ((0 : Nat) : Int) ((1 : Nat) : Int) (by decide) (by decide)
      (by decide) (by decide)
    rw [cellSum_natCast] at hc
    simpa using hc
  have h10 : M.get 1 0 = .ok (Real.exp (-1) * 0.25) := by
    have hc := hcells ((1 : Nat) : Int) ((0 : Nat) : Int) (by decide) (by decide)
      (by decide) (by decide)
    rw [cellSum_natCast] at hc
    simpa [hq] using hc
  refine ⟨M, hM, h01, h10, ?_⟩
  rw [h01, h10]
  intro hEq
  have hv : Real.exp (-1) = Real.exp (-1) * 0.25 := Except.ok.inj hEq
  have hpos : (0 : ℝ) < Real.exp (-1) := Real.exp_pos _
  linarith

end MyFunc
